import Mathlib

/-!
Verification of the beta-decay visualization core (src/main.cpp).

The C++ source uses `sf::Vector2f` (pairs of floats); we model vectors as
pairs of real numbers and float literals as the corresponding exact reals.
Render-only data (names, colors, draw calls) is omitted; the geometry,
state machine and hit-test logic are translated line by line.
-/

namespace BetaDecay

/-- Two-dimensional vector, modelling sf::Vector2f. -/
@[ext]
structure Vec2 where
  x : ℝ
  y : ℝ

instance : Add Vec2 := ⟨fun v w => ⟨v.x + w.x, v.y + w.y⟩⟩
instance : Sub Vec2 := ⟨fun v w => ⟨v.x - w.x, v.y - w.y⟩⟩
instance : Neg Vec2 := ⟨fun v => ⟨-v.x, -v.y⟩⟩
instance : HMul Vec2 ℝ Vec2 := ⟨fun v c => ⟨v.x * c, v.y * c⟩⟩

@[simp] theorem Vec2.add_x (v w : Vec2) : (v + w).x = v.x + w.x := rfl
@[simp] theorem Vec2.add_y (v w : Vec2) : (v + w).y = v.y + w.y := rfl
@[simp] theorem Vec2.sub_x (v w : Vec2) : (v - w).x = v.x - w.x := rfl
@[simp] theorem Vec2.sub_y (v w : Vec2) : (v - w).y = v.y - w.y := rfl
@[simp] theorem Vec2.neg_x (v : Vec2) : (-v).x = -v.x := rfl
@[simp] theorem Vec2.neg_y (v : Vec2) : (-v).y = -v.y := rfl
@[simp] theorem Vec2.smul_x (v : Vec2) (c : ℝ) : (v * c).x = v.x * c := rfl
@[simp] theorem Vec2.smul_y (v : Vec2) (c : ℝ) : (v * c).y = v.y * c := rfl
@[simp] theorem Vec2.mk_x (a b : ℝ) : (Vec2.mk a b).x = a := rfl
@[simp] theorem Vec2.mk_y (a b : ℝ) : (Vec2.mk a b).y = b := rfl

/-- Length of a vector (vlen in the source). -/
noncomputable def vlen (v : Vec2) : ℝ := Real.sqrt (v.x * v.x + v.y * v.y)

/-- Normalization with the near-zero guard (vnorm in the source):
length at most 1e-6 yields the zero vector. -/
noncomputable def vnorm (v : Vec2) : Vec2 :=
  if vlen v ≤ 1e-6 then ⟨0, 0⟩ else ⟨v.x / vlen v, v.y / vlen v⟩

/-- Dot product (vdot in the source). -/
def vdot (a b : Vec2) : ℝ := a.x * b.x + a.y * b.y

/-- Perpendicular vector (vperp in the source). -/
def vperp (v : Vec2) : Vec2 := ⟨-v.y, v.x⟩

/-- Squared distance between two points (dist2 in the source). -/
def dist2 (a b : Vec2) : ℝ := (a.x - b.x) * (a.x - b.x) + (a.y - b.y) * (a.y - b.y)

/-- Circle hit test: squared distance at most r squared (hitCircle in the source). -/
def hitCircle (mouse center : Vec2) (r : ℝ) : Prop := dist2 mouse center ≤ r * r

/-- std::clamp over the reals: lo if v below lo, hi if v above hi, else v. -/
noncomputable def clampR (v lo hi : ℝ) : ℝ := if v < lo then lo else if hi < v then hi else v

/-- Distance from a point to a segment (pointSegmentDistance in the source). -/
noncomputable def pointSegmentDistance (p a b : Vec2) : ℝ :=
  let ab := b - a
  let ab2 := vdot ab ab
  if ab2 ≤ 1e-6 then vlen (p - a)
  else
    let t := clampR (vdot (p - a) ab / ab2) 0 1
    vlen (p - (a + ab * t))

/-- Sign convention of the source (signf): plus one when x is at least zero. -/
noncomputable def signf (x : ℝ) : ℤ := if x ≥ 0 then 1 else -1

/-- Helicity sign: sign of spin dot momentum (helicitySign in the source). -/
noncomputable def helicitySign (spinDir momDir : Vec2) : ℤ := signf (vdot spinDir momDir)

/-- The three teaching modes. -/
inductive Mode where
  | SpinOnly
  | SpinAndMotion
  | FullConservation
deriving DecidableEq

/-- Moving body state (struct Particle; name and color are render-only and omitted). -/
structure Particle where
  pos : Vec2
  vel : Vec2
  spinDir : Vec2
  radius : ℝ
  trail : List Vec2
  trailTimer : ℝ

/-- One decay event (struct DecayEvent). -/
structure DecayEvent where
  electron : Particle
  antinu : Particle
  protonSpinSign : ℤ
  neutronSpinSign : ℤ
  L_needed : ℤ
  timeAlive : ℝ
  duration : ℝ

/-- Event generator (makeEvent in the source), parameterized on the three
random draws: the angle a from angleDist, the Bernoulli outcome wantLeft
(u01 below leftHandBias), and the proton-sign coin protonPlus (pm01). -/
noncomputable def makeEvent (a : ℝ) (wantLeft : Bool) (protonPlus : Bool)
    (origin : Vec2) (mode : Mode) : DecayEvent :=
  let dirE := vnorm ⟨Real.cos a, Real.sin a⟩
  let dirNu := vnorm (-dirE)
  let spinE := if wantLeft then vnorm (-dirE) else vnorm dirE
  let spinNu := vnorm dirNu
  let electron : Particle := ⟨origin, dirE * (260 : ℝ), spinE, 8, [], 0⟩
  let antinu0 : Particle := ⟨origin, dirNu * (260 : ℝ), spinNu, 6, [], 0⟩
  let antinu := if mode = Mode.SpinOnly then { antinu0 with spinDir := vnorm (-spinE) } else antinu0
  let sP : ℤ := if protonPlus then 1 else -1
  let sE : ℤ := if electron.spinDir.y ≥ 0 then 1 else -1
  let sN : ℤ := if antinu.spinDir.y ≥ 0 then 1 else -1
  ⟨electron, antinu, sP, 1, 1 - (sP + sE + sN), 0, 3⟩

/-- Arena rectangle of the source: position (60, 60), size (980, 580). -/
def arenaLeft : ℝ := 60
/-- Arena top edge. -/
def arenaTop : ℝ := 60
/-- Arena right edge: 60 + 980. -/
def arenaRight : ℝ := 60 + 980
/-- Arena bottom edge: 60 + 580. -/
def arenaBottom : ℝ := 60 + 580

/-- Trail sampling step of stepParticle: accumulate the timer; at 0.02s reset
it to zero, append the position, and evict the oldest sample past 70. -/
noncomputable def sampleTrail (timer : ℝ) (trail : List Vec2) (pos : Vec2) : ℝ × List Vec2 :=
  if timer ≥ 0.02 then
    (0, let t := trail ++ [pos]; if t.length > 70 then t.tail else t)
  else (timer, trail)

/-- Low-edge reflection of one axis: clamp to lo and negate velocity. -/
noncomputable def reflectLow (c v lo : ℝ) : ℝ × ℝ := if c < lo then (lo, -v) else (c, v)

/-- High-edge reflection of one axis: clamp to hi and negate velocity. -/
noncomputable def reflectHigh (c v hi : ℝ) : ℝ × ℝ := if c > hi then (hi, -v) else (c, v)

/-- Integration step (the stepParticle lambda in main): no-op when dt is not
positive; else move, sample the trail, reflect on each arena edge in source
order (x low, x high, y low, y high), and renormalize the spin direction. -/
noncomputable def stepParticle (dt : ℝ) (p : Particle) : Particle :=
  if dt ≤ 0 then p
  else
    let pos1 := p.pos + p.vel * dt
    let tt := sampleTrail (p.trailTimer + dt) p.trail pos1
    let rx1 := reflectLow pos1.x p.vel.x (arenaLeft + p.radius)
    let rx2 := reflectHigh rx1.1 rx1.2 (arenaRight - p.radius)
    let ry1 := reflectLow pos1.y p.vel.y (arenaTop + p.radius)
    let ry2 := reflectHigh ry1.1 ry1.2 (arenaBottom - p.radius)
    ⟨⟨rx2.1, ry2.1⟩, ⟨rx2.2, ry2.2⟩, vnorm p.spinDir, p.radius, tt.2, tt.1⟩

/-- Tooltip identities of the hit-test resolver. -/
inductive TipKind where
  | neutron
  | proton
  | electron
  | antinu
  | swirl
  | momentum
  | spin
deriving DecidableEq

/-- Annotated arrow segment (struct Seg in main): endpoints plus the integer
tag the source uses, 0 for momentum and 1 for spin. -/
structure Seg where
  a : Vec2
  b : Vec2
  kind : ℤ

/-- Arrow scan of the resolver: first segment whose distance to the pointer
is below 8 wins, keyed by its kind tag. -/
noncomputable def firstArrowHit (mouse : Vec2) : List Seg → Option TipKind
  | [] => none
  | s :: rest =>
      if pointSegmentDistance mouse s.a s.b < 8 then
        some (if s.kind = 0 then TipKind.momentum else TipKind.spin)
      else firstArrowHit mouse rest

open Classical in
/-- Hit-test resolver of main: the four body circles in priority order, then
the swirl ring band (FullConservation only), then the arrow segments. -/
noncomputable def resolveTooltip (mouse origin protonPos ePos nuPos : Vec2)
    (mode : Mode) (L : ℤ) (segs : List Seg) : Option TipKind :=
  if hitCircle mouse origin 24 then some TipKind.neutron
  else if hitCircle mouse protonPos 20 then some TipKind.proton
  else if hitCircle mouse ePos 18 then some TipKind.electron
  else if hitCircle mouse nuPos 16 then some TipKind.antinu
  else if mode = Mode.FullConservation ∧
      |vlen (mouse - origin) - (22 + (L.natAbs : ℝ) * 10)| < 14 then some TipKind.swirl
  else firstArrowHit mouse segs

/-- Swirl geometry emitted by drawOrbitalSwirl (vertex list elided). -/
structure Swirl where
  center : Vec2
  radius : ℝ
  turns : ℝ
  phase : ℝ

/-- drawOrbitalSwirl in the source: returns early (draws nothing) when the
magnitude of L_needed is zero, else emits a swirl of radius 22 + 10 mag. -/
noncomputable def drawOrbitalSwirl (center : Vec2) (L : ℤ) (time : ℝ) : Option Swirl :=
  let mag := L.natAbs
  if mag = 0 then none
  else some ⟨center, 22 + (mag : ℝ) * 10, 2 + 0.5 * (mag : ℝ),
    time * 2.2 * (if L > 0 then 1 else -1)⟩

/-- Discrete inputs handled by the key dispatcher in main. -/
inductive Key where
  | num1
  | num2
  | num3
  | space
  | up
  | down
  | p
  | n
  | h
deriving DecidableEq

/-- Control state of the main loop (mode, pause, one-shot step, bias, help). -/
structure Control where
  mode : Mode
  paused : Bool
  stepOnce : Bool
  leftHandBias : ℝ
  showHelp : Bool

/-- Key dispatcher of main. The returned Bool records whether the handler
regenerates the current event (keys 1, 2, 3, Space, Up, Down do; P, N, H do
not). -/
noncomputable def handleKey (k : Key) (c : Control) : Control × Bool :=
  match k with
  | Key.num1 => ({ c with mode := Mode.SpinOnly }, true)
  | Key.num2 => ({ c with mode := Mode.SpinAndMotion }, true)
  | Key.num3 => ({ c with mode := Mode.FullConservation }, true)
  | Key.space => (c, true)
  | Key.up => ({ c with leftHandBias := min 0.99 (c.leftHandBias + 0.02) }, true)
  | Key.down => ({ c with leftHandBias := max 0.01 (c.leftHandBias - 0.02) }, true)
  | Key.p => ({ c with paused := !c.paused }, false)
  | Key.n => (if c.paused then { c with stepOnce := true } else c, false)
  | Key.h => ({ c with showHelp := !c.showHelp }, false)

/-- Per-frame dt selection at the top of the main loop: wall dt when running;
while paused, zero, except a single 1/60 tick that consumes stepOnce. -/
noncomputable def frameDt (c : Control) (dtReal : ℝ) : ℝ × Control :=
  if c.paused then
    if c.stepOnce then (1 / 60, { c with stepOnce := false }) else (0, c)
  else (dtReal, c)

/-! Basic facts about the vector utilities. -/

theorem Vec2.neg_neg (v : Vec2) : -(-v) = v := by
  ext <;> simp

theorem vlen_cos_sin (a : ℝ) : vlen ⟨Real.cos a, Real.sin a⟩ = 1 := by
  unfold vlen
  rw [Vec2.mk_x, Vec2.mk_y,
    show Real.cos a * Real.cos a + Real.sin a * Real.sin a
      = Real.cos a ^ 2 + Real.sin a ^ 2 by ring,
    Real.cos_sq_add_sin_sq, Real.sqrt_one]

theorem vlen_neg (v : Vec2) : vlen (-v) = vlen v := by
  unfold vlen
  rw [Vec2.neg_x, Vec2.neg_y]
  congr 1
  ring

theorem vnorm_of_unit {v : Vec2} (h : vlen v = 1) : vnorm v = v := by
  unfold vnorm
  rw [h, if_neg (by norm_num)]
  ext <;> simp

theorem vnorm_neg_of_unit {v : Vec2} (h : vlen v = 1) : vnorm (-v) = -v :=
  vnorm_of_unit (by rw [vlen_neg]; exact h)

theorem vdot_self_of_unit {v : Vec2} (h : vlen v = 1) : vdot v v = 1 := by
  unfold vlen at h
  have hnn : 0 ≤ v.x * v.x + v.y * v.y :=
    add_nonneg (mul_self_nonneg _) (mul_self_nonneg _)
  have h2 : v.x * v.x + v.y * v.y = 1 := by
    have := Real.sq_sqrt hnn
    rw [h] at this
    simpa using this.symm
  simpa [vdot] using h2

theorem vdot_neg_right (a b : Vec2) : vdot a (-b) = -vdot a b := by
  simp [vdot]
  ring

theorem vneg_smul (v : Vec2) (c : ℝ) : (-v) * c = -(v * c) := by
  ext <;> simp

theorem vlen_smul_of_unit {v : Vec2} {c : ℝ} (h : vlen v = 1) (hc : 0 ≤ c) :
    vlen (v * c) = c := by
  unfold vlen at h ⊢
  rw [Vec2.smul_x, Vec2.smul_y,
    show v.x * c * (v.x * c) + v.y * c * (v.y * c) = c ^ 2 * (v.x * v.x + v.y * v.y) by ring,
    Real.sqrt_mul (sq_nonneg c), Real.sqrt_sq hc, h, mul_one]

/-- Closed form of the generator: the sampled direction is already a unit
vector, so every normalization in makeEvent is the identity. -/
theorem makeEvent_eq (a : ℝ) (wl pp : Bool) (o : Vec2) (m : Mode) :
    makeEvent a wl pp o m =
      let u : Vec2 := ⟨Real.cos a, Real.sin a⟩
      let spinE := if wl then -u else u
      let nuSpin := if m = Mode.SpinOnly then -spinE else -u
      ⟨⟨o, u * (260 : ℝ), spinE, 8, [], 0⟩,
       ⟨o, (-u) * (260 : ℝ), nuSpin, 6, [], 0⟩,
       (if pp then 1 else -1), 1,
       1 - ((if pp then 1 else -1) + (if spinE.y ≥ 0 then 1 else -1)
          + (if nuSpin.y ≥ 0 then 1 else -1)), 0, 3⟩ := by
  have hu : vlen (⟨Real.cos a, Real.sin a⟩ : Vec2) = 1 := vlen_cos_sin a
  have h1 : vnorm (⟨Real.cos a, Real.sin a⟩ : Vec2) = ⟨Real.cos a, Real.sin a⟩ :=
    vnorm_of_unit hu
  have h2 : vnorm (-(⟨Real.cos a, Real.sin a⟩ : Vec2)) = -⟨Real.cos a, Real.sin a⟩ :=
    vnorm_neg_of_unit hu
  have h3 : vnorm (-(-(⟨Real.cos a, Real.sin a⟩ : Vec2))) = ⟨Real.cos a, Real.sin a⟩ := by
    rw [Vec2.neg_neg]
    exact h1
  cases wl <;> cases m <;>
    simp [makeEvent, h1, h2, h3, Vec2.neg_neg]

theorem vdot_neg_left (a b : Vec2) : vdot (-a) b = -vdot a b := by
  simp [vdot]
  ring

/-- Claim C1: in SpinOnly mode, for every random draw, the antineutrino spin
direction is the exact negation of the electron spin direction, and the dot
product of the two normalized spin directions equals -1, independent of the
sampled helicity. -/
theorem C1_spinOnly_forced_opposition (a : ℝ) (wl pp : Bool) (o : Vec2) :
    (makeEvent a wl pp o Mode.SpinOnly).antinu.spinDir
        = -((makeEvent a wl pp o Mode.SpinOnly).electron.spinDir) ∧
    vdot (vnorm (makeEvent a wl pp o Mode.SpinOnly).electron.spinDir)
        (vnorm (makeEvent a wl pp o Mode.SpinOnly).antinu.spinDir) = -1 := by
  have hu : vlen (⟨Real.cos a, Real.sin a⟩ : Vec2) = 1 := vlen_cos_sin a
  have hneg : vlen (-(⟨Real.cos a, Real.sin a⟩ : Vec2)) = 1 := by
    rw [vlen_neg]
    exact hu
  simp only [makeEvent_eq]
  cases wl <;>
    constructor <;>
    simp [Vec2.neg_neg, vnorm_of_unit hu, vnorm_neg_of_unit hu,
      vdot_neg_right, vdot_neg_left, vdot_self_of_unit hu]

/-- Claim C2: for every generated event, L_needed equals
neutronSpinSign - (protonSpinSign + sign(electron.spinDir.y) +
sign(antinu.spinDir.y)) with sign x = 1 when x is at least zero, computed
from the final post-override spin directions; with proton sign +1 and both
spin y components nonnegative the value is -2. -/
theorem C2_orbital_deficit_formula (a : ℝ) (wl pp : Bool) (o : Vec2) (m : Mode) :
    (makeEvent a wl pp o m).L_needed
        = (makeEvent a wl pp o m).neutronSpinSign
          - ((makeEvent a wl pp o m).protonSpinSign
             + (if (makeEvent a wl pp o m).electron.spinDir.y ≥ 0 then 1 else -1)
             + (if (makeEvent a wl pp o m).antinu.spinDir.y ≥ 0 then 1 else -1)) ∧
    ((makeEvent a wl pp o m).protonSpinSign = 1 →
     (makeEvent a wl pp o m).electron.spinDir.y ≥ 0 →
     (makeEvent a wl pp o m).antinu.spinDir.y ≥ 0 →
     (makeEvent a wl pp o m).L_needed = -2) := by
  constructor
  · simp only [makeEvent_eq]
  · intro hp hy1 hy2
    simp only [makeEvent_eq] at hp hy1 hy2 ⊢
    rw [if_pos hy1, if_pos hy2]
    cases pp
    · simp at hp
    · norm_num

/-- Claim C2 witness: angle zero, right-handed draw, proton sign +1,
FullConservation mode gives the spec scenario with L_needed equal to -2. -/
theorem C2_orbital_deficit_formula_witness :
    (makeEvent 0 false true ⟨0, 0⟩ Mode.FullConservation).protonSpinSign = 1 ∧
    (makeEvent 0 false true ⟨0, 0⟩ Mode.FullConservation).electron.spinDir.y ≥ 0 ∧
    (makeEvent 0 false true ⟨0, 0⟩ Mode.FullConservation).antinu.spinDir.y ≥ 0 ∧
    (makeEvent 0 false true ⟨0, 0⟩ Mode.FullConservation).L_needed = -2 := by
  have h1 : (makeEvent 0 false true ⟨0, 0⟩ Mode.FullConservation).protonSpinSign = 1 := by
    simp [makeEvent_eq]
  have h2 : (makeEvent 0 false true ⟨0, 0⟩ Mode.FullConservation).electron.spinDir.y ≥ 0 := by
    simp [makeEvent_eq]
  have h3 : (makeEvent 0 false true ⟨0, 0⟩ Mode.FullConservation).antinu.spinDir.y ≥ 0 := by
    simp [makeEvent_eq]
  exact ⟨h1, h2, h3,
    (C2_orbital_deficit_formula 0 false true ⟨0, 0⟩ Mode.FullConservation).2 h1 h2 h3⟩

/-- Claim C4: for every generated event the antineutrino velocity is the
exact negation of the electron velocity, and both have magnitude 260. -/
theorem C4_velocity_negation (a : ℝ) (wl pp : Bool) (o : Vec2) (m : Mode) :
    (makeEvent a wl pp o m).antinu.vel = -((makeEvent a wl pp o m).electron.vel) ∧
    vlen (makeEvent a wl pp o m).electron.vel = 260 ∧
    vlen (makeEvent a wl pp o m).antinu.vel = 260 := by
  have hu : vlen (⟨Real.cos a, Real.sin a⟩ : Vec2) = 1 := vlen_cos_sin a
  simp only [makeEvent_eq]
  refine ⟨vneg_smul _ _, ?_, ?_⟩
  · exact vlen_smul_of_unit hu (by norm_num)
  · exact vlen_smul_of_unit (by rw [vlen_neg]; exact hu) (by norm_num)

/-- Claim C9: normalize is total, sending every vector of length at most
1e-6 (the zero vector included) to the zero vector; the helicity sign is
defined for every input, +1 exactly when the dot product of the normalized
spin and normalized velocity is at least zero and -1 otherwise, so a
degenerate zero spin vector yields helicity +1. -/
theorem C9_normalize_and_helicity_total :
    (∀ v : Vec2, vlen v ≤ 1e-6 → vnorm v = ⟨0, 0⟩) ∧
    (∀ s w : Vec2, helicitySign s w = if vdot s w ≥ 0 then 1 else -1) ∧
    (∀ s w : Vec2, vlen s ≤ 1e-6 → helicitySign (vnorm s) (vnorm w) = 1) := by
  refine ⟨?_, ?_, ?_⟩
  · intro v h
    unfold vnorm
    rw [if_pos h]
  · intro s w
    rfl
  · intro s w h
    have h0 : vnorm s = ⟨0, 0⟩ := by
      unfold vnorm
      rw [if_pos h]
    rw [h0]
    unfold helicitySign signf vdot
    norm_num

/-- Claim C9 witness: the zero vector normalizes to the zero vector and its
helicity against any momentum is +1. -/
theorem C9_normalize_and_helicity_total_witness :
    vlen ⟨0, 0⟩ ≤ 1e-6 ∧ vnorm ⟨0, 0⟩ = ⟨0, 0⟩ ∧
    helicitySign (vnorm ⟨0, 0⟩) (vnorm ⟨1, 0⟩) = 1 := by
  have h : vlen (⟨0, 0⟩ : Vec2) ≤ 1e-6 := by
    unfold vlen
    norm_num
  exact ⟨h, C9_normalize_and_helicity_total.1 ⟨0, 0⟩ h,
    C9_normalize_and_helicity_total.2.2 ⟨0, 0⟩ ⟨1, 0⟩ h⟩

/-- Claim C3: the resolver returns at most one tooltip, and when the pointer
is both within the neutron hit radius 24 and within the 8-unit band of some
arrow segment, the neutron tooltip wins (rule order is absolute). -/
theorem C3_neutron_beats_arrow (mouse origin pPos ePos nPos : Vec2) (m : Mode)
    (L : ℤ) (segs : List Seg) (h1 : hitCircle mouse origin 24)
    (h2 : ∃ s ∈ segs, pointSegmentDistance mouse s.a s.b < 8) :
    resolveTooltip mouse origin pPos ePos nPos m L segs = some TipKind.neutron := by
  unfold resolveTooltip
  rw [if_pos h1]

/-- Claim C3 witness: pointer on the neutron anchor and on a momentum
segment still resolves to the neutron tooltip. -/
theorem C3_neutron_beats_arrow_witness :
    hitCircle ⟨0, 0⟩ ⟨0, 0⟩ 24 ∧
    (∃ s ∈ [Seg.mk ⟨0, 0⟩ ⟨1, 0⟩ 0], pointSegmentDistance ⟨0, 0⟩ s.a s.b < 8) ∧
    resolveTooltip ⟨0, 0⟩ ⟨0, 0⟩ ⟨100, 0⟩ ⟨100, 0⟩ ⟨100, 0⟩ Mode.SpinOnly 0
      [Seg.mk ⟨0, 0⟩ ⟨1, 0⟩ 0] = some TipKind.neutron := by
  have h1 : hitCircle (⟨0, 0⟩ : Vec2) ⟨0, 0⟩ 24 := by
    unfold hitCircle dist2
    norm_num
  have hd : pointSegmentDistance ⟨0, 0⟩ ⟨0, 0⟩ ⟨1, 0⟩ < 8 := by
    unfold pointSegmentDistance clampR vdot vlen
    norm_num
  have h2 : ∃ s ∈ [Seg.mk (⟨0, 0⟩ : Vec2) ⟨1, 0⟩ 0],
      pointSegmentDistance ⟨0, 0⟩ s.a s.b < 8 :=
    ⟨Seg.mk ⟨0, 0⟩ ⟨1, 0⟩ 0, by simp, hd⟩
  exact ⟨h1, h2, C3_neutron_beats_arrow _ _ _ _ _ _ _ _ h1 h2⟩

/-- Claim C10: in FullConservation mode with L_needed zero, a pointer that
misses all four body circles but lies in the annular band of half-width 14
around radius 22 receives the swirl tooltip, even though drawOrbitalSwirl
draws nothing for magnitude zero. -/
theorem C10_swirl_hit_without_swirl (mouse origin pPos ePos nPos : Vec2)
    (segs : List Seg) (time : ℝ)
    (h1 : ¬hitCircle mouse origin 24) (h2 : ¬hitCircle mouse pPos 20)
    (h3 : ¬hitCircle mouse ePos 18) (h4 : ¬hitCircle mouse nPos 16)
    (h5 : |vlen (mouse - origin) - 22| < 14) :
    resolveTooltip mouse origin pPos ePos nPos Mode.FullConservation 0 segs
        = some TipKind.swirl ∧
    drawOrbitalSwirl origin 0 time = none := by
  constructor
  · unfold resolveTooltip
    rw [if_neg h1, if_neg h2, if_neg h3, if_neg h4, if_pos ⟨rfl, by simpa using h5⟩]
  · unfold drawOrbitalSwirl
    simp

/-- Claim C10 witness: a pointer 30 units left of the neutron anchor, away
from the proton and both particles, resolves to the swirl tooltip with
L_needed zero while the swirl itself is not drawn. -/
theorem C10_swirl_hit_without_swirl_witness :
    ¬hitCircle ⟨170, 350⟩ ⟨200, 350⟩ 24 ∧
    |vlen (⟨170, 350⟩ - ⟨200, 350⟩ : Vec2) - 22| < 14 ∧
    resolveTooltip ⟨170, 350⟩ ⟨200, 350⟩ ⟨240, 350⟩ ⟨500, 350⟩ ⟨500, 350⟩
        Mode.FullConservation 0 [] = some TipKind.swirl ∧
    drawOrbitalSwirl ⟨200, 350⟩ 0 0 = none := by
  have h1 : ¬hitCircle (⟨170, 350⟩ : Vec2) ⟨200, 350⟩ 24 := by
    unfold hitCircle dist2
    norm_num
  have h2 : ¬hitCircle (⟨170, 350⟩ : Vec2) ⟨240, 350⟩ 20 := by
    unfold hitCircle dist2
    norm_num
  have h3 : ¬hitCircle (⟨170, 350⟩ : Vec2) ⟨500, 350⟩ 18 := by
    unfold hitCircle dist2
    norm_num
  have h4 : ¬hitCircle (⟨170, 350⟩ : Vec2) ⟨500, 350⟩ 16 := by
    unfold hitCircle dist2
    norm_num
  have hv : vlen (⟨170, 350⟩ - ⟨200, 350⟩ : Vec2) = 30 := by
    unfold vlen
    rw [Vec2.sub_x, Vec2.sub_y]
    norm_num
    rw [show ((900 : ℝ)) = 30 ^ 2 by norm_num]
    exact Real.sqrt_sq (by norm_num)
  have h5 : |vlen (⟨170, 350⟩ - ⟨200, 350⟩ : Vec2) - 22| < 14 := by
    rw [hv]
    norm_num
  have hmain := C10_swirl_hit_without_swirl ⟨170, 350⟩ ⟨200, 350⟩ ⟨240, 350⟩
    ⟨500, 350⟩ ⟨500, 350⟩ [] 0 h1 h2 h3 h4 h5
  exact ⟨h1, h5, hmain.1, hmain.2⟩

/-- Unfolded form of the integration step for positive dt. -/
theorem stepParticle_run (dt : ℝ) (p : Particle) (hdt : 0 < dt) :
    stepParticle dt p =
      ⟨⟨(reflectHigh (reflectLow (p.pos + p.vel * dt).x p.vel.x (arenaLeft + p.radius)).1
            (reflectLow (p.pos + p.vel * dt).x p.vel.x (arenaLeft + p.radius)).2
            (arenaRight - p.radius)).1,
        (reflectHigh (reflectLow (p.pos + p.vel * dt).y p.vel.y (arenaTop + p.radius)).1
            (reflectLow (p.pos + p.vel * dt).y p.vel.y (arenaTop + p.radius)).2
            (arenaBottom - p.radius)).1⟩,
       ⟨(reflectHigh (reflectLow (p.pos + p.vel * dt).x p.vel.x (arenaLeft + p.radius)).1
            (reflectLow (p.pos + p.vel * dt).x p.vel.x (arenaLeft + p.radius)).2
            (arenaRight - p.radius)).2,
        (reflectHigh (reflectLow (p.pos + p.vel * dt).y p.vel.y (arenaTop + p.radius)).1
            (reflectLow (p.pos + p.vel * dt).y p.vel.y (arenaTop + p.radius)).2
            (arenaBottom - p.radius)).2⟩,
       vnorm p.spinDir, p.radius,
       (sampleTrail (p.trailTimer + dt) p.trail (p.pos + p.vel * dt)).2,
       (sampleTrail (p.trailTimer + dt) p.trail (p.pos + p.vel * dt)).1⟩ := by
  unfold stepParticle
  rw [if_neg (not_le.mpr hdt)]

/-- The low-then-high reflection chain keeps a coordinate inside the band. -/
theorem reflect_chain_mem (c v lo hi : ℝ) (h : lo ≤ hi) :
    lo ≤ (reflectHigh (reflectLow c v lo).1 (reflectLow c v lo).2 hi).1 ∧
    (reflectHigh (reflectLow c v lo).1 (reflectLow c v lo).2 hi).1 ≤ hi := by
  unfold reflectLow reflectHigh
  by_cases hlo : c < lo
  · rw [if_pos hlo]
    rw [if_neg (show ¬(lo, -v).1 > hi from not_lt.mpr h)]
    exact ⟨le_refl lo, h⟩
  · rw [if_neg hlo]
    by_cases hhi : c > hi
    · rw [if_pos (show (c, v).1 > hi from hhi)]
      exact ⟨h, le_refl hi⟩
    · rw [if_neg (show ¬(c, v).1 > hi from hhi)]
      exact ⟨not_lt.mp hlo, not_lt.mp hhi⟩

/-- Below the low edge the chain clamps to the edge and negates velocity. -/
theorem reflect_chain_low (c v lo hi : ℝ) (h : lo ≤ hi) (hc : c < lo) :
    reflectHigh (reflectLow c v lo).1 (reflectLow c v lo).2 hi = (lo, -v) := by
  unfold reflectLow reflectHigh
  rw [if_pos hc]
  exact if_neg (show ¬(lo, -v).1 > hi from not_lt.mpr h)

/-- Above the high edge the chain clamps to the edge and negates velocity. -/
theorem reflect_chain_high (c v lo hi : ℝ) (hlo : ¬c < lo) (hc : c > hi) :
    reflectHigh (reflectLow c v lo).1 (reflectLow c v lo).2 hi = (hi, -v) := by
  unfold reflectLow reflectHigh
  rw [if_neg hlo]
  exact if_pos (show (c, v).1 > hi from hc)

/-- Claim C5: after a step with positive dt the particle position lies in
the inset arena box on both axes, and an out-of-range coordinate is clamped
to the boundary with the matching velocity component negated, each axis
handled independently. The radius bound keeps the inset box nonempty (the
generated particles have radius 8 and 6). -/
theorem C5_position_in_arena (dt : ℝ) (p : Particle) (hdt : 0 < dt)
    (hr : p.radius ≤ 290) :
    (arenaLeft + p.radius ≤ (stepParticle dt p).pos.x ∧
     (stepParticle dt p).pos.x ≤ arenaRight - p.radius) ∧
    (arenaTop + p.radius ≤ (stepParticle dt p).pos.y ∧
     (stepParticle dt p).pos.y ≤ arenaBottom - p.radius) ∧
    ((p.pos + p.vel * dt).x < arenaLeft + p.radius →
      (stepParticle dt p).pos.x = arenaLeft + p.radius ∧
      (stepParticle dt p).vel.x = -p.vel.x) ∧
    ((p.pos + p.vel * dt).x > arenaRight - p.radius →
      (stepParticle dt p).pos.x = arenaRight - p.radius ∧
      (stepParticle dt p).vel.x = -p.vel.x) ∧
    ((p.pos + p.vel * dt).y < arenaTop + p.radius →
      (stepParticle dt p).pos.y = arenaTop + p.radius ∧
      (stepParticle dt p).vel.y = -p.vel.y) ∧
    ((p.pos + p.vel * dt).y > arenaBottom - p.radius →
      (stepParticle dt p).pos.y = arenaBottom - p.radius ∧
      (stepParticle dt p).vel.y = -p.vel.y) := by
  have hx : arenaLeft + p.radius ≤ arenaRight - p.radius := by
    unfold arenaLeft arenaRight
    linarith
  have hy : arenaTop + p.radius ≤ arenaBottom - p.radius := by
    unfold arenaTop arenaBottom
    linarith
  rw [stepParticle_run dt p hdt]
  refine ⟨reflect_chain_mem _ _ _ _ hx, reflect_chain_mem _ _ _ _ hy, ?_, ?_, ?_, ?_⟩
  · intro hc
    rw [reflect_chain_low _ _ _ _ hx hc]
    exact ⟨rfl, rfl⟩
  · intro hc
    have hnlo : ¬(p.pos + p.vel * dt).x < arenaLeft + p.radius := by
      push_neg
      linarith
    rw [reflect_chain_high _ _ _ _ hnlo hc]
    exact ⟨rfl, rfl⟩
  · intro hc
    rw [reflect_chain_low _ _ _ _ hy hc]
    exact ⟨rfl, rfl⟩
  · intro hc
    have hnlo : ¬(p.pos + p.vel * dt).y < arenaTop + p.radius := by
      push_neg
      linarith
    rw [reflect_chain_high _ _ _ _ hnlo hc]
    exact ⟨rfl, rfl⟩

/-- Claim C5 witness: a particle dropped at the origin corner with zero
velocity is clamped into the inset box after one unit step. -/
theorem C5_position_in_arena_witness :
    (0 : ℝ) < 1 ∧
    (Particle.mk ⟨0, 0⟩ ⟨0, 0⟩ ⟨1, 0⟩ 8 [] 0).radius ≤ 290 ∧
    arenaLeft + 8 ≤ (stepParticle 1 (Particle.mk ⟨0, 0⟩ ⟨0, 0⟩ ⟨1, 0⟩ 8 [] 0)).pos.x := by
  refine ⟨by norm_num, by norm_num, ?_⟩
  exact (C5_position_in_arena 1 (Particle.mk ⟨0, 0⟩ ⟨0, 0⟩ ⟨1, 0⟩ 8 [] 0)
    (by norm_num) (by norm_num)).1.1

/-- Timer component of the trail sampler. -/
theorem sampleTrail_fst (timer : ℝ) (trail : List Vec2) (pos : Vec2) :
    (sampleTrail timer trail pos).1 = if timer ≥ 0.02 then 0 else timer := by
  unfold sampleTrail
  split_ifs <;> rfl

/-- Length of the sampler output below the eviction threshold. -/
theorem sampleTrail_snd_length (timer : ℝ) (trail : List Vec2) (pos : Vec2)
    (h : trail.length ≤ 69) :
    (sampleTrail timer trail pos).2.length
      = if timer ≥ 0.02 then trail.length + 1 else trail.length := by
  unfold sampleTrail
  split_ifs with hs
  · have hne : ¬(trail ++ [pos]).length > 70 := by
      rw [List.length_append]
      simp
      omega
    rw [if_neg hne]
    simp
  · rfl

/-- Claim C6: a step with positive dt keeps the trail at no more than 70
samples (given the cap held before), and when a sample lands on a full
trail the oldest entry is evicted while the rest keep their order and the
new sample is appended at the end. -/
theorem C6_trail_cap_fifo (dt : ℝ) (p : Particle) (hdt : 0 < dt)
    (hlen : p.trail.length ≤ 70) :
    (stepParticle dt p).trail.length ≤ 70 ∧
    (p.trailTimer + dt ≥ 0.02 → p.trail.length = 70 →
      (stepParticle dt p).trail = p.trail.tail ++ [p.pos + p.vel * dt]) := by
  rw [stepParticle_run dt p hdt]
  dsimp only
  unfold sampleTrail
  constructor
  · split_ifs with hs
    · dsimp only
      split_ifs with he
      · rw [List.length_tail, List.length_append]
        simp
        omega
      · push_neg at he
        rw [List.length_append] at he
        simpa using he
    · exact hlen
  · intro hs h70
    rw [if_pos hs]
    dsimp only
    have hgt : (p.trail ++ [p.pos + p.vel * dt]).length > 70 := by
      rw [List.length_append, h70]
      simp
    rw [if_pos hgt]
    cases hl : p.trail with
    | nil =>
        rw [hl] at h70
        simp at h70
    | cons a t =>
        simp

/-- Claim C6 witness: stepping a particle whose trail already holds 70
samples evicts the oldest and appends the new position. -/
theorem C6_trail_cap_fifo_witness :
    (0 : ℝ) < 1 ∧
    (List.replicate 70 (⟨0, 0⟩ : Vec2)).length ≤ 70 ∧
    (stepParticle 1
      (Particle.mk ⟨500, 350⟩ ⟨0, 0⟩ ⟨1, 0⟩ 8 (List.replicate 70 ⟨0, 0⟩) 0)).trail.length ≤ 70 ∧
    (stepParticle 1
        (Particle.mk ⟨500, 350⟩ ⟨0, 0⟩ ⟨1, 0⟩ 8 (List.replicate 70 ⟨0, 0⟩) 0)).trail
      = (List.replicate 70 (⟨0, 0⟩ : Vec2)).tail
        ++ [(⟨500, 350⟩ : Vec2) + (⟨0, 0⟩ : Vec2) * (1 : ℝ)] := by
  have h := C6_trail_cap_fifo 1
    (Particle.mk ⟨500, 350⟩ ⟨0, 0⟩ ⟨1, 0⟩ 8 (List.replicate 70 ⟨0, 0⟩) 0)
    (by norm_num) (by simp)
  exact ⟨by norm_num, by simp, h.1, h.2 (by norm_num) (by simp)⟩

/-- Claim C8 counterexample: two 0.02 steps append two trail samples while
one 0.04 step appends only one, so the sample count over a span of
simulated time does depend on how the span is divided into steps. -/
theorem C8_counterexample_split_dependent :
    (stepParticle 0.02 (stepParticle 0.02
        (Particle.mk ⟨500, 350⟩ ⟨0, 0⟩ ⟨1, 0⟩ 8 [] 0))).trail.length ≠
    (stepParticle (0.02 + 0.02)
        (Particle.mk ⟨500, 350⟩ ⟨0, 0⟩ ⟨1, 0⟩ 8 [] 0)).trail.length := by
  have h1 : (stepParticle 0.02
      (Particle.mk ⟨500, 350⟩ ⟨0, 0⟩ ⟨1, 0⟩ 8 [] 0)).trail.length = 1 := by
    rw [stepParticle_run _ _ (by norm_num)]
    dsimp only
    rw [sampleTrail_snd_length _ _ _ (by simp)]
    norm_num
  have htimer : (stepParticle 0.02
      (Particle.mk ⟨500, 350⟩ ⟨0, 0⟩ ⟨1, 0⟩ 8 [] 0)).trailTimer = 0 := by
    rw [stepParticle_run _ _ (by norm_num)]
    dsimp only
    rw [sampleTrail_fst]
    norm_num
  have h2 : (stepParticle 0.02 (stepParticle 0.02
      (Particle.mk ⟨500, 350⟩ ⟨0, 0⟩ ⟨1, 0⟩ 8 [] 0))).trail.length = 2 := by
    rw [stepParticle_run _ _ (by norm_num)]
    dsimp only
    rw [sampleTrail_snd_length _ _ _ (by rw [h1]; omega), htimer, h1]
    norm_num
  have h3 : (stepParticle (0.02 + 0.02)
      (Particle.mk ⟨500, 350⟩ ⟨0, 0⟩ ⟨1, 0⟩ 8 [] 0)).trail.length = 1 := by
    rw [stepParticle_run _ _ (by norm_num)]
    dsimp only
    rw [sampleTrail_snd_length _ _ _ (by simp)]
    norm_num
  rw [h2, h3]
  omega

/-- Claim C8 amended: trail sampling is gated by a 0.02 s timer that resets
to zero on each sample, and each integration step appends at most one
sample; hence one combined step appends at most one sample while the same
span split into two steps appends at least as many, equality failing in
general. -/
theorem C8_amended_split_superadditive (dt1 dt2 : ℝ) (p : Particle)
    (h1 : 0 < dt1) (h2 : 0 < dt2) (hlen : p.trail.length ≤ 68) :
    (stepParticle (dt1 + dt2) p).trail.length ≤ p.trail.length + 1 ∧
    (stepParticle (dt1 + dt2) p).trail.length ≤
      (stepParticle dt2 (stepParticle dt1 p)).trail.length := by
  have hcomb : (stepParticle (dt1 + dt2) p).trail.length
      = if p.trailTimer + (dt1 + dt2) ≥ 0.02 then p.trail.length + 1
        else p.trail.length := by
    rw [stepParticle_run _ _ (by linarith)]
    dsimp only
    exact sampleTrail_snd_length _ _ _ (by omega)
  have hfst : (stepParticle dt1 p).trail.length
      = if p.trailTimer + dt1 ≥ 0.02 then p.trail.length + 1
        else p.trail.length := by
    rw [stepParticle_run _ _ h1]
    dsimp only
    exact sampleTrail_snd_length _ _ _ (by omega)
  have htm : (stepParticle dt1 p).trailTimer
      = if p.trailTimer + dt1 ≥ 0.02 then 0 else p.trailTimer + dt1 := by
    rw [stepParticle_run _ _ h1]
    dsimp only
    exact sampleTrail_fst _ _ _
  have hsnd : (stepParticle dt2 (stepParticle dt1 p)).trail.length
      = if (stepParticle dt1 p).trailTimer + dt2 ≥ 0.02
        then (stepParticle dt1 p).trail.length + 1
        else (stepParticle dt1 p).trail.length := by
    rw [stepParticle_run dt2 _ h2]
    dsimp only
    refine sampleTrail_snd_length _ _ _ ?_
    rw [hfst]
    split_ifs <;> omega
  constructor
  · rw [hcomb]
    split_ifs <;> omega
  · rw [hcomb, hsnd, htm, hfst]
    split_ifs <;> first
      | omega
      | (exfalso; linarith)

/-- Claim C8 amended witness: from an empty trail, one combined step of two
time units appends one sample, and the split into two unit steps appends
two. -/
theorem C8_amended_split_superadditive_witness :
    (0 : ℝ) < 1 ∧
    (Particle.mk ⟨500, 350⟩ ⟨0, 0⟩ ⟨1, 0⟩ 8 [] 0).trail.length ≤ 68 ∧
    (stepParticle ((1 : ℝ) + 1)
        (Particle.mk ⟨500, 350⟩ ⟨0, 0⟩ ⟨1, 0⟩ 8 [] 0)).trail.length ≤
      (stepParticle 1 (stepParticle 1
        (Particle.mk ⟨500, 350⟩ ⟨0, 0⟩ ⟨1, 0⟩ 8 [] 0))).trail.length := by
  refine ⟨by norm_num, by simp, ?_⟩
  exact (C8_amended_split_superadditive 1 1
    (Particle.mk ⟨500, 350⟩ ⟨0, 0⟩ ⟨1, 0⟩ 8 [] 0)
    (by norm_num) (by norm_num) (by simp)).2

/-- Claim C7: while paused, a single-step input does not regenerate the
event, the next frame advances by exactly the fixed 1/60 tick, and the
controller is paused again with the one-shot flag consumed, so the frame
after that advances by zero; when not paused, the single-step input has no
effect at all. -/
theorem C7_single_step_tick (c : Control) (dtReal dtNext : ℝ) :
    (c.paused = true →
      (handleKey Key.n c).2 = false ∧
      (frameDt (handleKey Key.n c).1 dtReal).1 = 1 / 60 ∧
      (frameDt (handleKey Key.n c).1 dtReal).2.paused = true ∧
      (frameDt (handleKey Key.n c).1 dtReal).2.stepOnce = false ∧
      (frameDt (frameDt (handleKey Key.n c).1 dtReal).2 dtNext).1 = 0) ∧
    (c.paused = false → handleKey Key.n c = (c, false)) := by
  constructor
  · intro h
    simp [handleKey, frameDt, h]
  · intro h
    simp [handleKey, frameDt, h]

/-- Claim C7 witness: a concrete paused controller steps one 1/60 tick and
re-pauses; the same input is a no-op on a running controller. -/
theorem C7_single_step_tick_witness :
    (Control.mk Mode.SpinOnly true false 0.85 true).paused = true ∧
    (frameDt (handleKey Key.n (Control.mk Mode.SpinOnly true false 0.85 true)).1
        0.016).1 = 1 / 60 ∧
    (frameDt (handleKey Key.n (Control.mk Mode.SpinOnly true false 0.85 true)).1
        0.016).2.paused = true ∧
    (Control.mk Mode.SpinOnly false false 0.85 true).paused = false ∧
    handleKey Key.n (Control.mk Mode.SpinOnly false false 0.85 true)
      = (Control.mk Mode.SpinOnly false false 0.85 true, false) := by
  have ha := (C7_single_step_tick (Control.mk Mode.SpinOnly true false 0.85 true)
    0.016 0.016).1 rfl
  have hb := (C7_single_step_tick (Control.mk Mode.SpinOnly false false 0.85 true)
    0.016 0.016).2 rfl
  exact ⟨rfl, ha.2.1, ha.2.2.1, rfl, hb⟩

end BetaDecay
